import Mathlib

/-
Shallow embedding of the VL805 flashrom driver (vl805.c).

The driver talks to the device only through a few primitives:
  vl805_setregval / vl805_getregval (an index/data register window),
  vl805_mcu_active (pci_write_byte at offset 0x43), and one raw
  pci_read_long at offset 0x50 (firmware version).
We model each call to one of these primitives as an `Event`, so a run of a
driver function is a list of events.  Values read from the device
(pci_read_long results) are supplied by an oracle `o : Nat → Nat`; each
read value is truncated to 32 bits, matching the uint32_t return type.

All machine integers are modelled as Nat.  In vl805_spi_send_command the
counters are C `unsigned int`; the embedding uses exact Nat arithmetic,
which coincides with the C semantics whenever writecnt + readcnt + 4 ≤ 2^32
(for larger totals the C loop index `j` would wrap).  Theorems about the
transaction encoder carry that bound as a hypothesis.
-/

namespace VL805

/-! Register address constants, from the `#define`s in vl805.c. -/

def VL805_REG_STOP_POLLING : Nat := 0x0004000c
def VL805_REG_WB_EN : Nat := 0x00040020
def VL805_REG_SPI_OUTDATA : Nat := 0x000400d0
def VL805_REG_SPI_INDATA : Nat := 0x000400e0
def VL805_REG_SPI_TRANSACTION : Nat := 0x000400f0
def VL805_REG_CLK_DIV : Nat := 0x000400f8
def VL805_REG_SPI_CHIP_ENABLE_LEVEL : Nat := 0x000400fc

/-- One observable device operation performed by the driver:
`setreg`/`getreg` are calls to vl805_setregval / vl805_getregval
(`val` of a `getreg` is the value the read returned), `mcuActive` is
vl805_mcu_active, and `readLong` is a raw pci_read_long at a config
offset (used for the firmware version). -/
inductive Event where
  | setreg (reg val : Nat)
  | getreg (reg val : Nat)
  | mcuActive (val : Nat)
  | readLong (off val : Nat)
  deriving DecidableEq, Repr

/-- The OUTDATA packing loop of vl805_spi_send_command (lines 94-101):
`for (i = 0; i < curtotalcnt; i++) { outdata <<= 8;
 if (i < curwritecnt) outdata |= writearr[j + i]; }`.
`wa` is the write buffer (unsigned char entries, hence `% 256`). -/
def packOut (wa : Nat → Nat) (j curtotalcnt curwritecnt : Nat) : Nat :=
  (List.range curtotalcnt).foldl
    (fun outdata i =>
      if i < curwritecnt then (outdata <<< 8) ||| (wa (j + i) % 256)
      else outdata <<< 8) 0

/-- The INDATA extraction loop of vl805_spi_send_command (lines 108-111):
`for (i = curreadcnt; i > 0; i--) readarr[readpos++] = (indata >> (8 * (i-1))) & 0xff;`
returning the bytes in the order they are appended. -/
def extractIn (indata : Nat) : Nat → List Nat
  | 0 => []
  | i + 1 => ((indata >>> (8 * i)) &&& 0xff) :: extractIn indata i

/-- Per-iteration data of the chunk loop in vl805_spi_send_command:
the loop counter `jpos` (the C variable `j`) and the values of
`curtotalcnt`, `curwritecnt`, `curreadcnt`, `outdata`, `indata`
computed in that iteration. -/
structure ChunkInfo where
  jpos : Nat
  curtotalcnt : Nat
  curwritecnt : Nat
  curreadcnt : Nat
  outdata : Nat
  indata : Nat
  deriving DecidableEq, Repr

/-- One iteration of the chunk loop (lines 90-106), with `rem` the
remaining total count `totalcnt - j`, `wl` = writes_left, `rl` = reads_left.
`curtotalcnt = min(4, totalcnt - j)`, `curwritecnt = min(4, writes_left)`,
`curreadcnt = min(4 - curwritecnt, reads_left)`; `indata` is the 32-bit
value returned by the INDATA read of this iteration (oracle indexed by the
chunk number `j / 4`). -/
def mkChunk (wa o : Nat → Nat) (rem j wl rl : Nat) : ChunkInfo :=
  { jpos := j
    curtotalcnt := min 4 rem
    curwritecnt := min 4 wl
    curreadcnt := min (4 - min 4 wl) rl
    outdata := packOut wa j (min 4 rem) (min 4 wl)
    indata := o (j / 4) % 2 ^ 32 }

/-- The chunk loop `for (j = 0; j < totalcnt; j += 4)` of
vl805_spi_send_command, as recursion on `rem = totalcnt - j`.
After an iteration, writes_left has been decremented once per loop index
`i < curtotalcnt` with `i < curwritecnt` (i.e. `min curtotalcnt curwritecnt`
times) and reads_left once per extracted byte (`curreadcnt` times). -/
def sendChunks (wa o : Nat → Nat) : Nat → Nat → Nat → Nat → List ChunkInfo
  | 0, _, _, _ => []
  | r + 1, j, wl, rl =>
    mkChunk wa o (r + 1) j wl rl ::
      sendChunks wa o ((r + 1) - 4) (j + 4)
        (wl - min (min 4 (r + 1)) (min 4 wl))
        (rl - min (4 - min 4 wl) rl)
  termination_by r _ _ _ => r
  decreasing_by omega

/-- The three register operations one chunk iteration performs:
the OUTDATA write, the TRANSACTION write `0x580 | (curtotalcnt << 3)`
(line 104) and the INDATA read (line 106). -/
def chunkEvents (c : ChunkInfo) : List Event :=
  [Event.setreg VL805_REG_SPI_OUTDATA c.outdata,
   Event.setreg VL805_REG_SPI_TRANSACTION (0x580 ||| (c.curtotalcnt <<< 3)),
   Event.getreg VL805_REG_SPI_INDATA c.indata]

/-- The bytes a chunk iteration appends to readarr. -/
def chunkReads (c : ChunkInfo) : List Nat := extractIn c.indata c.curreadcnt

/-- The indices of writearr read by a chunk iteration: `j + i` for each
loop index `i < curtotalcnt` with `i < curwritecnt`. -/
def chunkWidx (c : ChunkInfo) : List Nat :=
  (List.range (min c.curtotalcnt c.curwritecnt)).map (c.jpos + ·)

/-- Result of one run of vl805_spi_send_command: the chunk-loop iterations,
the full event trace, the bytes stored into readarr (in order of the
positions readpos = 0, 1, ...), the writearr indices read during the call,
and the C return value. -/
structure SendResult where
  chunks : List ChunkInfo
  events : List Event
  readarr : List Nat
  widx : List Nat
  ret : Int
  deriving Repr

/-- vl805_spi_send_command (lines 65-117).  `o` supplies the INDATA values
the device returns, `wa` is the write buffer.  The trace is the
chip-enable assert (line 87), the chunk loop, and the chip-enable
deassert (line 114); index 0 of writearr is additionally read by the
debug message on line 86, before any chunk. -/
def vl805_spi_send_command (o : Nat → Nat) (writecnt readcnt : Nat)
    (wa : Nat → Nat) : SendResult :=
  { chunks := sendChunks wa o (writecnt + readcnt) 0 writecnt readcnt
    events := Event.setreg VL805_REG_SPI_CHIP_ENABLE_LEVEL 0 ::
      ((sendChunks wa o (writecnt + readcnt) 0 writecnt readcnt).flatMap chunkEvents ++
        [Event.setreg VL805_REG_SPI_CHIP_ENABLE_LEVEL 1])
    readarr := (sendChunks wa o (writecnt + readcnt) 0 writecnt readcnt).flatMap chunkReads
    widx := 0 :: (sendChunks wa o (writecnt + readcnt) 0 writecnt readcnt).flatMap chunkWidx
    ret := 0 }

/-- The read-modify-write expression `(val & 0xffffff00) | 0x01` used for
the WB_EN and STOP_POLLING writes in vl805_init (lines 167 and 170). -/
def maskLow1 (val : Nat) : Nat := (val &&& 0xffffff00) ||| 0x01

/-- The device operations of the successful bring-up path of vl805_init
(lines 159-178), in program order.  `fwval`, `wbval`, `spval` are the raw
values the device returns for the three reads (firmware version, WB_EN,
STOP_POLLING); each is truncated to 32 bits by the uint32_t read. -/
def vl805_init_events (fwval wbval spval : Nat) : List Event :=
  [Event.mcuActive 1,
   Event.readLong 0x50 (fwval % 2 ^ 32),
   Event.setreg VL805_REG_SPI_CHIP_ENABLE_LEVEL 1,
   Event.getreg VL805_REG_WB_EN (wbval % 2 ^ 32),
   Event.setreg VL805_REG_WB_EN (maskLow1 (wbval % 2 ^ 32)),
   Event.getreg VL805_REG_STOP_POLLING (spval % 2 ^ 32),
   Event.setreg VL805_REG_STOP_POLLING (maskLow1 (spval % 2 ^ 32)),
   Event.setreg VL805_REG_SPI_TRANSACTION 0x000005a0,
   Event.setreg VL805_REG_CLK_DIV 0x0000000a,
   Event.mcuActive 0]

/-- Number of `setreg` events targeting register `r`. -/
def writesTo (r : Nat) (es : List Event) : Nat :=
  es.countP (fun e => match e with | .setreg r' _ => r' == r | _ => false)

/-- Number of `getreg` events targeting register `r`. -/
def readsFrom (r : Nat) (es : List Event) : Nat :=
  es.countP (fun e => match e with | .getreg r' _ => r' == r | _ => false)

/-- Whether an event touches (reads or writes) register `r`. -/
def touches (r : Nat) (e : Event) : Bool :=
  match e with
  | .setreg r' _ => r' == r
  | .getreg r' _ => r' == r
  | _ => false

/-- The sequence of values written to register `r`, in trace order. -/
def writeVals (r : Nat) (es : List Event) : List Nat :=
  es.filterMap (fun e => match e with
    | .setreg r' v => if r' == r then some v else none
    | _ => none)

/-- The kind of a device operation, forgetting any data that depends on
values the device returned: the constructor tag paired with the register
address (for the window operations), the control-byte value (for
`mcuActive`), or the config offset (for `readLong`). -/
def eventShape : Event → Nat × Nat
  | .setreg r _ => (0, r)
  | .getreg r _ => (1, r)
  | .mcuActive v => (2, v)
  | .readLong off _ => (3, off)

end VL805

/-! ### Structural lemmas about the chunk loop -/

namespace VL805

theorem extractIn_length (ind : Nat) : ∀ c, (extractIn ind c).length = c := by
  intro c
  induction c with
  | zero => rfl
  | succ c ih => simp [extractIn, ih]

theorem extractIn_eq_range (ind : Nat) :
    ∀ c, extractIn ind c
      = (List.range c).reverse.map (fun i => (ind >>> (8 * i)) &&& 0xff) := by
  intro c
  induction c with
  | zero => rfl
  | succ c ih => rw [extractIn, List.range_succ]; simp [ih]

theorem sendChunks_length (wa o : Nat → Nat) :
    ∀ rem j wl rl, (sendChunks wa o rem j wl rl).length = (rem + 3) / 4 := by
  intro rem
  induction rem using Nat.strong_induction_on with
  | _ rem ih =>
    intro j wl rl
    match rem with
    | 0 => simp [sendChunks]
    | r + 1 =>
      rw [sendChunks, List.length_cons, ih ((r + 1) - 4) (by omega)]
      omega

end VL805

namespace VL805

theorem sendChunks_sums (wa o : Nat → Nat) :
    ∀ rem j wl rl, wl + rl = rem →
      ((sendChunks wa o rem j wl rl).map ChunkInfo.curwritecnt).sum = wl ∧
      ((sendChunks wa o rem j wl rl).map ChunkInfo.curreadcnt).sum = rl := by
  intro rem
  induction rem using Nat.strong_induction_on with
  | _ rem ih =>
    intro j wl rl h
    match rem with
    | 0 =>
      simp [sendChunks]
      omega
    | r + 1 =>
      rw [sendChunks]
      have h' := ih ((r + 1) - 4) (by omega) (j + 4)
        (wl - min (min 4 (r + 1)) (min 4 wl))
        (rl - min (4 - min 4 wl) rl) (by omega)
      simp only [List.map_cons, List.sum_cons, mkChunk, h'.1, h'.2]
      omega

theorem sendChunks_mem_bounds (wa o : Nat → Nat) :
    ∀ rem j wl rl, ∀ c ∈ sendChunks wa o rem j wl rl,
      c.curwritecnt ≤ 4 ∧ c.curreadcnt ≤ 4 - c.curwritecnt := by
  intro rem
  induction rem using Nat.strong_induction_on with
  | _ rem ih =>
    intro j wl rl c hc
    match rem with
    | 0 => simp [sendChunks] at hc
    | r + 1 =>
      rw [sendChunks] at hc
      rcases List.mem_cons.mp hc with h | h
      · subst h
        simp only [mkChunk]
        omega
      · exact ih ((r + 1) - 4) (by omega) _ _ _ c h

theorem sendChunks_ct (wa o : Nat → Nat) :
    ∀ rem j wl rl,
      (sendChunks wa o rem j wl rl).map ChunkInfo.curtotalcnt
        = (List.range ((rem + 3) / 4)).map (fun k => min 4 (rem - 4 * k)) := by
  intro rem
  induction rem using Nat.strong_induction_on with
  | _ rem ih =>
    intro j wl rl
    match rem with
    | 0 => simp [sendChunks]
    | r + 1 =>
      rw [sendChunks, List.map_cons, ih ((r + 1) - 4) (by omega)]
      have hn : (r + 1 + 3) / 4 = ((r + 1) - 4 + 3) / 4 + 1 := by omega
      rw [hn, List.range_succ_eq_map, List.map_cons, List.map_map]
      have h1 : (mkChunk wa o (r + 1) j wl rl).curtotalcnt = min 4 (r + 1 - 4 * 0) := by
        simp [mkChunk]
      rw [h1]
      congr 1
      apply List.map_congr_left
      intro k hk
      simp only [Function.comp]
      omega

end VL805

namespace VL805

theorem sendChunks_readlen (wa o : Nat → Nat) :
    ∀ rem j wl rl, wl + rl = rem →
      ((sendChunks wa o rem j wl rl).flatMap chunkReads).length = rl := by
  intro rem
  induction rem using Nat.strong_induction_on with
  | _ rem ih =>
    intro j wl rl h
    match rem with
    | 0 =>
      simp [sendChunks]
      omega
    | r + 1 =>
      rw [sendChunks, List.flatMap_cons, List.length_append,
        ih ((r + 1) - 4) (by omega) (j + 4)
          (wl - min (min 4 (r + 1)) (min 4 wl))
          (rl - min (4 - min 4 wl) rl) (by omega)]
      simp only [chunkReads, mkChunk, extractIn_length]
      omega

theorem sendChunks_widx_empty (wa o : Nat → Nat) :
    ∀ rem j rl, (sendChunks wa o rem j 0 rl).flatMap chunkWidx = [] := by
  intro rem
  induction rem using Nat.strong_induction_on with
  | _ rem ih =>
    intro j rl
    match rem with
    | 0 => rw [sendChunks]; rfl
    | r + 1 =>
      rw [sendChunks, List.flatMap_cons]
      have h0 : (0 : Nat) - min (min 4 (r + 1)) (min 4 0) = 0 := by omega
      rw [h0, ih ((r + 1) - 4) (by omega)]
      simp [chunkWidx, mkChunk]

theorem sendChunks_widx_lt (wa o : Nat → Nat) :
    ∀ rem j wl rl, wl + rl = rem →
      ∀ i ∈ (sendChunks wa o rem j wl rl).flatMap chunkWidx, i < j + wl := by
  intro rem
  induction rem using Nat.strong_induction_on with
  | _ rem ih =>
    intro j wl rl h i hi
    match rem with
    | 0 => rw [sendChunks] at hi; simp at hi
    | r + 1 =>
      rw [sendChunks, List.flatMap_cons, List.mem_append] at hi
      rcases hi with hi | hi
      · simp only [chunkWidx, mkChunk, List.mem_map, List.mem_range] at hi
        obtain ⟨t, ht, rfl⟩ := hi
        omega
      · by_cases hwl : 4 ≤ wl
        · have h4 : i < (j + 4) + (wl - min (min 4 (r + 1)) (min 4 wl)) :=
            ih ((r + 1) - 4) (by omega) (j + 4)
              (wl - min (min 4 (r + 1)) (min 4 wl))
              (rl - min (4 - min 4 wl) rl) (by omega) i hi
          omega
        · have hz : wl - min (min 4 (r + 1)) (min 4 wl) = 0 := by omega
          rw [hz, sendChunks_widx_empty] at hi
          simp at hi

end VL805

namespace VL805

theorem countP_flatMap {α β : Type} (p : β → Bool) (f : α → List β) :
    ∀ l : List α, ((l.flatMap f).countP p) = (l.map fun a => (f a).countP p).sum := by
  intro l
  induction l with
  | nil => rfl
  | cons a l ih => rw [List.flatMap_cons, List.countP_append, ih]; simp

theorem sum_map_one {α : Type} : ∀ l : List α, (l.map fun _ => (1 : Nat)).sum = l.length := by
  intro l
  induction l with
  | nil => rfl
  | cons a l ih => simp [ih]; omega

theorem chunkEvents_writesTo_outdata (c : ChunkInfo) :
    writesTo VL805_REG_SPI_OUTDATA (chunkEvents c) = 1 := by
  simp [writesTo, chunkEvents, List.countP_cons, VL805_REG_SPI_OUTDATA,
    VL805_REG_SPI_TRANSACTION, VL805_REG_SPI_INDATA, List.countP_nil]

theorem chunkEvents_writesTo_transaction (c : ChunkInfo) :
    writesTo VL805_REG_SPI_TRANSACTION (chunkEvents c) = 1 := by
  simp [writesTo, chunkEvents, List.countP_cons, VL805_REG_SPI_OUTDATA,
    VL805_REG_SPI_TRANSACTION, VL805_REG_SPI_INDATA, List.countP_nil]

theorem chunkEvents_readsFrom_indata (c : ChunkInfo) :
    readsFrom VL805_REG_SPI_INDATA (chunkEvents c) = 1 := by
  simp [readsFrom, chunkEvents, List.countP_cons, VL805_REG_SPI_OUTDATA,
    VL805_REG_SPI_TRANSACTION, VL805_REG_SPI_INDATA, List.countP_nil]

theorem chunkEvents_no_ce (c : ChunkInfo) :
    (chunkEvents c).filter (touches VL805_REG_SPI_CHIP_ENABLE_LEVEL) = [] := by
  simp [touches, chunkEvents, List.filter, VL805_REG_SPI_OUTDATA,
    VL805_REG_SPI_TRANSACTION, VL805_REG_SPI_INDATA, VL805_REG_SPI_CHIP_ENABLE_LEVEL]

theorem filter_flatMap_nil {α β : Type} (p : β → Bool) (f : α → List β)
    (hf : ∀ a, (f a).filter p = []) :
    ∀ l : List α, (l.flatMap f).filter p = [] := by
  intro l
  induction l with
  | nil => rfl
  | cons a l ih => rw [List.flatMap_cons, List.filter_append, hf, ih]; rfl

theorem chunkEvents_writeVals_transaction (c : ChunkInfo) :
    writeVals VL805_REG_SPI_TRANSACTION (chunkEvents c)
      = [0x580 ||| (c.curtotalcnt <<< 3)] := by
  simp [writeVals, chunkEvents, List.filterMap, VL805_REG_SPI_OUTDATA,
    VL805_REG_SPI_TRANSACTION, VL805_REG_SPI_INDATA]

theorem writeVals_flatMap_chunkEvents :
    ∀ l : List ChunkInfo,
      writeVals VL805_REG_SPI_TRANSACTION (l.flatMap chunkEvents)
        = l.map fun c => 0x580 ||| (c.curtotalcnt <<< 3) := by
  intro l
  induction l with
  | nil => rfl
  | cons c l ih =>
    rw [List.flatMap_cons, writeVals, List.filterMap_append]
    rw [writeVals] at ih
    rw [ih, List.map_cons]
    have hc := chunkEvents_writeVals_transaction c
    rw [writeVals] at hc
    rw [hc]
    rfl

end VL805

/-! ### Claim theorems: the transaction encoder -/

namespace VL805

theorem countP_send_events (p : Event → Bool) (o : Nat → Nat) (wc rc : Nat)
    (wa : Nat → Nat)
    (h0 : p (Event.setreg VL805_REG_SPI_CHIP_ENABLE_LEVEL 0) = false)
    (h1 : p (Event.setreg VL805_REG_SPI_CHIP_ENABLE_LEVEL 1) = false)
    (hc : ∀ c, (chunkEvents c).countP p = 1) :
    (vl805_spi_send_command o wc rc wa).events.countP p = (wc + rc + 3) / 4 := by
  simp only [vl805_spi_send_command]
  rw [List.countP_cons, List.countP_append, countP_flatMap]
  have hm : (sendChunks wa o (wc + rc) 0 wc rc).map (fun c => (chunkEvents c).countP p)
      = (sendChunks wa o (wc + rc) 0 wc rc).map (fun _ => 1) :=
    List.map_congr_left (fun c _ => hc c)
  rw [hm, sum_map_one, sendChunks_length]
  rw [List.countP_cons, List.countP_nil, h0, h1]
  simp

/-- Claim C1: for every call to the transaction encoder (in the input range
where the C unsigned arithmetic does not wrap), the number of writes to the
SPI_OUTDATA register equals ceil((writecnt+readcnt)/4) = (writecnt+readcnt+3)/4,
and the number of SPI_TRANSACTION writes and the number of SPI_INDATA reads
each equal that same count; in particular all three are zero when
writecnt + readcnt = 0. -/
theorem claim_c1_cycle_counts (o : Nat → Nat) (writecnt readcnt : Nat)
    (wa : Nat → Nat) (h : writecnt + readcnt + 4 ≤ 2 ^ 32) :
    writesTo VL805_REG_SPI_OUTDATA (vl805_spi_send_command o writecnt readcnt wa).events
        = (writecnt + readcnt + 3) / 4 ∧
    writesTo VL805_REG_SPI_TRANSACTION (vl805_spi_send_command o writecnt readcnt wa).events
        = (writecnt + readcnt + 3) / 4 ∧
    readsFrom VL805_REG_SPI_INDATA (vl805_spi_send_command o writecnt readcnt wa).events
        = (writecnt + readcnt + 3) / 4 := by
  refine ⟨?_, ?_, ?_⟩
  · exact countP_send_events _ o writecnt readcnt wa (by decide) (by decide)
      chunkEvents_writesTo_outdata
  · exact countP_send_events _ o writecnt readcnt wa (by decide) (by decide)
      chunkEvents_writesTo_transaction
  · exact countP_send_events _ o writecnt readcnt wa (by decide) (by decide)
      chunkEvents_readsFrom_indata

theorem claim_c1_cycle_counts_witness :
    writesTo VL805_REG_SPI_OUTDATA (vl805_spi_send_command (fun _ => 0) 2 3 (fun _ => 0)).events = 2 ∧
    writesTo VL805_REG_SPI_TRANSACTION (vl805_spi_send_command (fun _ => 0) 2 3 (fun _ => 0)).events = 2 ∧
    readsFrom VL805_REG_SPI_INDATA (vl805_spi_send_command (fun _ => 0) 2 3 (fun _ => 0)).events = 2 :=
  claim_c1_cycle_counts (fun _ => 0) 2 3 (fun _ => 0) (by decide)

/-- Claim C9: for every call to the transaction encoder (inputs in the
non-wrapping range) and for every sequence of values the bus read primitive
returns (the oracle `o`), vl805_spi_send_command returns 0 (success). -/
theorem claim_c9_always_success (o : Nat → Nat) (writecnt readcnt : Nat)
    (wa : Nat → Nat) (h : writecnt + readcnt + 4 ≤ 2 ^ 32) :
    (vl805_spi_send_command o writecnt readcnt wa).ret = 0 := rfl

theorem claim_c9_always_success_witness :
    (vl805_spi_send_command (fun k => 7 * k + 5) 3 9 (fun i => i + 1)).ret = 0 :=
  claim_c9_always_success (fun k => 7 * k + 5) 3 9 (fun i => i + 1) (by decide)

end VL805

namespace VL805

/-- Claim C2: for every call (inputs in the non-wrapping range), the bytes
stored into readarr are, chunk by chunk, extracted from that chunk's INDATA
word most-significant active byte first — for `i` counting down from
`curreadcnt` to 1 the appended byte is `(indata >>> (8*(i-1))) &&& 0xff`,
i.e. the byte at shift `8*i'` for `i'` descending over
`(range curreadcnt).reverse` — appended at consecutive positions, and the
concatenation over all chunks has length exactly readcnt. -/
theorem claim_c2_read_extraction (o : Nat → Nat) (writecnt readcnt : Nat)
    (wa : Nat → Nat) (h : writecnt + readcnt + 4 ≤ 2 ^ 32) :
    (vl805_spi_send_command o writecnt readcnt wa).readarr
        = (vl805_spi_send_command o writecnt readcnt wa).chunks.flatMap
            (fun c => (List.range c.curreadcnt).reverse.map
              (fun i => (c.indata >>> (8 * i)) &&& 0xff)) ∧
    (vl805_spi_send_command o writecnt readcnt wa).readarr.length = readcnt := by
  constructor
  · have hf : chunkReads = fun c : ChunkInfo =>
        (List.range c.curreadcnt).reverse.map (fun i => (c.indata >>> (8 * i)) &&& 0xff) :=
      funext fun c => extractIn_eq_range c.indata c.curreadcnt
    show (sendChunks wa o (writecnt + readcnt) 0 writecnt readcnt).flatMap chunkReads = _
    rw [hf]
    rfl
  · exact sendChunks_readlen wa o (writecnt + readcnt) 0 writecnt readcnt rfl

theorem claim_c2_read_extraction_witness :
    (vl805_spi_send_command (fun _ => 0x11223344) 1 6 (fun _ => 0x9f)).readarr
        = (vl805_spi_send_command (fun _ => 0x11223344) 1 6 (fun _ => 0x9f)).chunks.flatMap
            (fun c => (List.range c.curreadcnt).reverse.map
              (fun i => (c.indata >>> (8 * i)) &&& 0xff)) ∧
    (vl805_spi_send_command (fun _ => 0x11223344) 1 6 (fun _ => 0x9f)).readarr.length = 6 :=
  claim_c2_read_extraction (fun _ => 0x11223344) 1 6 (fun _ => 0x9f) (by decide)

/-- Claim C5: for every call (inputs in the non-wrapping range), the chunk
write-counts sum to writecnt, the chunk read-counts sum to readcnt, no chunk
carries more than 4 bytes total, and a chunk's read count never exceeds the
slots its write portion left free. -/
theorem claim_c5_chunk_invariants (o : Nat → Nat) (writecnt readcnt : Nat)
    (wa : Nat → Nat) (h : writecnt + readcnt + 4 ≤ 2 ^ 32) :
    ((vl805_spi_send_command o writecnt readcnt wa).chunks.map
        ChunkInfo.curwritecnt).sum = writecnt ∧
    ((vl805_spi_send_command o writecnt readcnt wa).chunks.map
        ChunkInfo.curreadcnt).sum = readcnt ∧
    ∀ c ∈ (vl805_spi_send_command o writecnt readcnt wa).chunks,
      c.curwritecnt + c.curreadcnt ≤ 4 ∧ c.curreadcnt ≤ 4 - c.curwritecnt := by
  refine ⟨(sendChunks_sums wa o (writecnt + readcnt) 0 writecnt readcnt rfl).1,
    (sendChunks_sums wa o (writecnt + readcnt) 0 writecnt readcnt rfl).2, ?_⟩
  intro c hc
  have hb := sendChunks_mem_bounds wa o (writecnt + readcnt) 0 writecnt readcnt c hc
  omega

theorem claim_c5_chunk_invariants_witness :
    ((vl805_spi_send_command (fun _ => 0) 5 2 (fun _ => 0)).chunks.map
        ChunkInfo.curwritecnt).sum = 5 ∧
    ((vl805_spi_send_command (fun _ => 0) 5 2 (fun _ => 0)).chunks.map
        ChunkInfo.curreadcnt).sum = 2 ∧
    ∀ c ∈ (vl805_spi_send_command (fun _ => 0) 5 2 (fun _ => 0)).chunks,
      c.curwritecnt + c.curreadcnt ≤ 4 ∧ c.curreadcnt ≤ 4 - c.curwritecnt :=
  claim_c5_chunk_invariants (fun _ => 0) 5 2 (fun _ => 0) (by decide)

/-- Claim C6: for every call (inputs in the non-wrapping range), including
writecnt = readcnt = 0, the chip-enable-level register is written exactly
twice: value 0 as the very first event of the call and value 1 as the very
last, with no other access to that register in between. -/
theorem claim_c6_chip_select_bracketing (o : Nat → Nat) (writecnt readcnt : Nat)
    (wa : Nat → Nat) (h : writecnt + readcnt + 4 ≤ 2 ^ 32) :
    (vl805_spi_send_command o writecnt readcnt wa).events.head?
        = some (Event.setreg VL805_REG_SPI_CHIP_ENABLE_LEVEL 0) ∧
    (vl805_spi_send_command o writecnt readcnt wa).events.getLast?
        = some (Event.setreg VL805_REG_SPI_CHIP_ENABLE_LEVEL 1) ∧
    (vl805_spi_send_command o writecnt readcnt wa).events.filter
        (touches VL805_REG_SPI_CHIP_ENABLE_LEVEL)
      = [Event.setreg VL805_REG_SPI_CHIP_ENABLE_LEVEL 0,
         Event.setreg VL805_REG_SPI_CHIP_ENABLE_LEVEL 1] := by
  refine ⟨rfl, ?_, ?_⟩
  · show (Event.setreg VL805_REG_SPI_CHIP_ENABLE_LEVEL 0 ::
        ((sendChunks wa o (writecnt + readcnt) 0 writecnt readcnt).flatMap chunkEvents ++
          [Event.setreg VL805_REG_SPI_CHIP_ENABLE_LEVEL 1])).getLast? = _
    rw [← List.cons_append, List.getLast?_concat]
  · show (Event.setreg VL805_REG_SPI_CHIP_ENABLE_LEVEL 0 ::
        ((sendChunks wa o (writecnt + readcnt) 0 writecnt readcnt).flatMap chunkEvents ++
          [Event.setreg VL805_REG_SPI_CHIP_ENABLE_LEVEL 1])).filter
        (touches VL805_REG_SPI_CHIP_ENABLE_LEVEL) = _
    rw [List.filter_cons, List.filter_append,
      filter_flatMap_nil _ _ chunkEvents_no_ce]
    simp [touches]

theorem claim_c6_chip_select_bracketing_witness :
    (vl805_spi_send_command (fun _ => 0) 0 0 (fun _ => 0)).events.head?
        = some (Event.setreg VL805_REG_SPI_CHIP_ENABLE_LEVEL 0) ∧
    (vl805_spi_send_command (fun _ => 0) 0 0 (fun _ => 0)).events.getLast?
        = some (Event.setreg VL805_REG_SPI_CHIP_ENABLE_LEVEL 1) ∧
    (vl805_spi_send_command (fun _ => 0) 0 0 (fun _ => 0)).events.filter
        (touches VL805_REG_SPI_CHIP_ENABLE_LEVEL)
      = [Event.setreg VL805_REG_SPI_CHIP_ENABLE_LEVEL 0,
         Event.setreg VL805_REG_SPI_CHIP_ENABLE_LEVEL 1] :=
  claim_c6_chip_select_bracketing (fun _ => 0) 0 0 (fun _ => 0) (by decide)

/-- Claim C7: for every call (inputs in the non-wrapping range), the values
written to the SPI_TRANSACTION register are, in order, one per chunk k,
`0x580 ||| (curtotalcnt <<< 3)` with
`curtotalcnt = min 4 (writecnt + readcnt - 4*k)`, the remaining total byte
count of that chunk. -/
theorem claim_c7_transaction_words (o : Nat → Nat) (writecnt readcnt : Nat)
    (wa : Nat → Nat) (h : writecnt + readcnt + 4 ≤ 2 ^ 32) :
    writeVals VL805_REG_SPI_TRANSACTION
        (vl805_spi_send_command o writecnt readcnt wa).events
      = (List.range ((writecnt + readcnt + 3) / 4)).map
          (fun k => 0x580 ||| ((min 4 (writecnt + readcnt - 4 * k)) <<< 3)) := by
  show writeVals VL805_REG_SPI_TRANSACTION
      (Event.setreg VL805_REG_SPI_CHIP_ENABLE_LEVEL 0 ::
        ((sendChunks wa o (writecnt + readcnt) 0 writecnt readcnt).flatMap chunkEvents ++
          [Event.setreg VL805_REG_SPI_CHIP_ENABLE_LEVEL 1])) = _
  rw [writeVals, List.filterMap_cons, List.filterMap_append]
  have hTail := writeVals_flatMap_chunkEvents
    (sendChunks wa o (writecnt + readcnt) 0 writecnt readcnt)
  rw [writeVals] at hTail
  rw [hTail]
  have hmap : (sendChunks wa o (writecnt + readcnt) 0 writecnt readcnt).map
        (fun c => 0x580 ||| (c.curtotalcnt <<< 3))
      = ((sendChunks wa o (writecnt + readcnt) 0 writecnt readcnt).map
          ChunkInfo.curtotalcnt).map (fun t => 0x580 ||| (t <<< 3)) := by
    rw [List.map_map]; rfl
  rw [hmap, sendChunks_ct, List.map_map]
  simp [Function.comp, VL805_REG_SPI_CHIP_ENABLE_LEVEL, VL805_REG_SPI_TRANSACTION]

theorem claim_c7_transaction_words_witness :
    writeVals VL805_REG_SPI_TRANSACTION
        (vl805_spi_send_command (fun _ => 0) 4 2 (fun _ => 0)).events
      = (List.range ((4 + 2 + 3) / 4)).map
          (fun k => 0x580 ||| ((min 4 (4 + 2 - 4 * k)) <<< 3)) :=
  claim_c7_transaction_words (fun _ => 0) 4 2 (fun _ => 0) (by decide)

/-- Claim C10: the transaction encoder reads index 0 of the write buffer
unconditionally (for the debug message), even when writecnt = 0; and (inputs
in the non-wrapping range) when writecnt ≥ 1, every write-buffer index read
during the call is < writecnt, and the readarr positions written are exactly
0 .. readcnt-1 (the stored list has length readcnt). -/
theorem claim_c10_buffer_bounds (o : Nat → Nat) (writecnt readcnt : Nat)
    (wa : Nat → Nat) (h : writecnt + readcnt + 4 ≤ 2 ^ 32) :
    (vl805_spi_send_command o writecnt readcnt wa).widx.head? = some 0 ∧
    (1 ≤ writecnt →
      ∀ i ∈ (vl805_spi_send_command o writecnt readcnt wa).widx, i < writecnt) ∧
    (vl805_spi_send_command o writecnt readcnt wa).readarr.length = readcnt := by
  refine ⟨rfl, ?_, sendChunks_readlen wa o (writecnt + readcnt) 0 writecnt readcnt rfl⟩
  intro h1 i hi
  have hi' : i ∈ (0 : Nat) ::
      (sendChunks wa o (writecnt + readcnt) 0 writecnt readcnt).flatMap chunkWidx := hi
  rcases List.mem_cons.mp hi' with rfl | hm
  · omega
  · have := sendChunks_widx_lt wa o (writecnt + readcnt) 0 writecnt readcnt rfl i hm
    omega

theorem claim_c10_buffer_bounds_witness :
    (vl805_spi_send_command (fun _ => 0) 3 6 (fun _ => 0)).widx.head? = some 0 ∧
    (1 ≤ 3 →
      ∀ i ∈ (vl805_spi_send_command (fun _ => 0) 3 6 (fun _ => 0)).widx, i < 3) ∧
    (vl805_spi_send_command (fun _ => 0) 3 6 (fun _ => 0)).readarr.length = 6 :=
  claim_c10_buffer_bounds (fun _ => 0) 3 6 (fun _ => 0) (by decide)

end VL805

/-! ### The bring-up sequence and the read-modify-write masking -/

namespace VL805

theorem mask_testBit_eq (i : Nat) :
    (0xffffff00 : Nat).testBit i = (decide (8 ≤ i) && decide (i - 8 < 24)) := by
  have he : (0xffffff00 : Nat) = (2 ^ 24 - 1) <<< 8 := by rw [Nat.shiftLeft_eq]; norm_num
  rw [he, Nat.testBit_shiftLeft, Nat.testBit_two_pow_sub_one]

theorem maskLow1_bit0 (v : Nat) : (maskLow1 v).testBit 0 = true := by
  rw [maskLow1, Nat.testBit_or]
  simp

theorem maskLow1_low_cleared (v : Nat) (i : Nat) (h1 : 1 ≤ i) (h7 : i ≤ 7) :
    (maskLow1 v).testBit i = false := by
  rw [maskLow1, Nat.testBit_or, Nat.testBit_and, mask_testBit_eq,
    Nat.testBit_lt_two_pow (Nat.one_lt_two_pow_iff.mpr (by omega))]
  have hd : decide (8 ≤ i) = false := by simp; omega
  simp [hd]

theorem maskLow1_high_preserved (v : Nat) (hv : v < 2 ^ 32) (i : Nat) (h8 : 8 ≤ i) :
    (maskLow1 v).testBit i = v.testBit i := by
  rw [maskLow1, Nat.testBit_or, Nat.testBit_and, mask_testBit_eq,
    Nat.testBit_lt_two_pow (Nat.one_lt_two_pow_iff.mpr (by omega))]
  by_cases h32 : i < 32
  · have d1 : decide (8 ≤ i) = true := by simp [h8]
    have d2 : decide (i - 8 < 24) = true := by simp; omega
    simp [d1, d2]
  · have hvb : v.testBit i = false :=
      Nat.testBit_lt_two_pow (lt_of_lt_of_le hv (Nat.pow_le_pow_right (by omega) (by omega)))
    have d2 : decide (i - 8 < 24) = false := by simp; omega
    simp [hvb, d2]

/-- Counterexample to claim C3: with WB_EN read value 0xff during bring-up,
the value written back is 0x01, which differs from the read value in bit 1
(and bits 2..7) as well as bit 0 — not "only in bit 0" with "bits 1 through 7
equal to the corresponding bit most recently read". -/
theorem claim_c3_counterexample :
    (vl805_init_events 0 0xff 0).get? 3
        = some (Event.getreg VL805_REG_WB_EN 0xff) ∧
    (vl805_init_events 0 0xff 0).get? 4
        = some (Event.setreg VL805_REG_WB_EN 0x01) ∧
    Nat.testBit 0xff 1 = true ∧ Nat.testBit 0x01 1 = false := by
  refine ⟨by decide, by decide, by decide, by decide⟩

/-- Claim C3 (amended): during bring-up the value written back to WB_EN
(trace position 4) and to STOP_POLLING (trace position 6) is
`maskLow1` of the value just read from that same register (positions 3 and
5), and `maskLow1` changes only the low byte: bit 0 of the written value is
forced to 1, bits 1 through 7 are forced to 0, and every bit from 8 up
equals the corresponding bit of the value read. -/
theorem claim_c3_rmw_masking (fwval wbval spval : Nat) :
    (vl805_init_events fwval wbval spval).get? 3
        = some (Event.getreg VL805_REG_WB_EN (wbval % 2 ^ 32)) ∧
    (vl805_init_events fwval wbval spval).get? 4
        = some (Event.setreg VL805_REG_WB_EN (maskLow1 (wbval % 2 ^ 32))) ∧
    (vl805_init_events fwval wbval spval).get? 5
        = some (Event.getreg VL805_REG_STOP_POLLING (spval % 2 ^ 32)) ∧
    (vl805_init_events fwval wbval spval).get? 6
        = some (Event.setreg VL805_REG_STOP_POLLING (maskLow1 (spval % 2 ^ 32))) ∧
    ∀ v : Nat, v < 2 ^ 32 →
      (maskLow1 v).testBit 0 = true ∧
      (∀ i, 1 ≤ i → i ≤ 7 → (maskLow1 v).testBit i = false) ∧
      (∀ i, 8 ≤ i → (maskLow1 v).testBit i = v.testBit i) := by
  refine ⟨rfl, rfl, rfl, rfl, ?_⟩
  intro v hv
  exact ⟨maskLow1_bit0 v,
    fun i h1 h7 => maskLow1_low_cleared v i h1 h7,
    fun i h8 => maskLow1_high_preserved v hv i h8⟩

theorem claim_c3_rmw_masking_witness :
    (vl805_init_events 0 0x1ff 0x1ff).get? 4
        = some (Event.setreg VL805_REG_WB_EN (maskLow1 (0x1ff % 2 ^ 32))) ∧
    (maskLow1 (0x1ff % 2 ^ 32)).testBit 0 = true ∧
    (maskLow1 (0x1ff % 2 ^ 32)).testBit 3 = false ∧
    (maskLow1 (0x1ff % 2 ^ 32)).testBit 8 = (0x1ff % 2 ^ 32 : Nat).testBit 8 :=
  ⟨(claim_c3_rmw_masking 0 0x1ff 0x1ff).2.1,
   ((claim_c3_rmw_masking 0 0x1ff 0x1ff).2.2.2.2 (0x1ff % 2 ^ 32) (by decide)).1,
   ((claim_c3_rmw_masking 0 0x1ff 0x1ff).2.2.2.2 (0x1ff % 2 ^ 32) (by decide)).2.1 3
     (by decide) (by decide),
   ((claim_c3_rmw_masking 0 0x1ff 0x1ff).2.2.2.2 (0x1ff % 2 ^ 32) (by decide)).2.2 8
     (by decide)⟩

end VL805

namespace VL805

theorem sendChunks_zero (wa o : Nat → Nat) (j wl rl : Nat) :
    sendChunks wa o 0 j wl rl = [] := by
  rw [sendChunks]

theorem sendChunks_pos (wa o : Nat → Nat) (rem j wl rl : Nat) (h : 0 < rem) :
    sendChunks wa o rem j wl rl
      = mkChunk wa o rem j wl rl ::
        sendChunks wa o (rem - 4) (j + 4)
          (wl - min (min 4 rem) (min 4 wl))
          (rl - min (4 - min 4 wl) rl) := by
  match rem with
  | r + 1 => rw [sendChunks]

/-- Claim C8: on the successful path of vl805_init the device operations
are exactly, in order: MCU-active set to 1; firmware-version read at config
offset 0x50; chip-enable-level set to 1; WB_EN read then write-back;
STOP_POLLING read then write-back; priming word 0x5a0 written to the
TRANSACTION register; clock divider set to the fixed value 0x0a; MCU-active
set to 0 — ten operations, with nothing else interleaved, for every
combination of values the three reads return. -/
theorem claim_c8_bringup_sequence (fwval wbval spval : Nat) :
    (vl805_init_events fwval wbval spval).map eventShape
      = [(2, 1), (3, 0x50),
         (0, VL805_REG_SPI_CHIP_ENABLE_LEVEL),
         (1, VL805_REG_WB_EN), (0, VL805_REG_WB_EN),
         (1, VL805_REG_STOP_POLLING), (0, VL805_REG_STOP_POLLING),
         (0, VL805_REG_SPI_TRANSACTION), (0, VL805_REG_CLK_DIV), (2, 0)] ∧
    (vl805_init_events fwval wbval spval).get? 2
        = some (Event.setreg VL805_REG_SPI_CHIP_ENABLE_LEVEL 1) ∧
    (vl805_init_events fwval wbval spval).get? 7
        = some (Event.setreg VL805_REG_SPI_TRANSACTION 0x5a0) ∧
    (vl805_init_events fwval wbval spval).get? 8
        = some (Event.setreg VL805_REG_CLK_DIV 0xa) ∧
    (vl805_init_events fwval wbval spval).length = 10 :=
  ⟨rfl, rfl, rfl, rfl, rfl⟩

/-- Counterexample to claim C4: for writecnt = 1, readcnt = 0 with write
byte 0xab, the single chunk's OUTDATA value is 0xab itself — the byte sits
in the least significant byte of the 32-bit word, not in the most
significant byte (which would require the value 0xab <<< 24). -/
theorem claim_c4_counterexample :
    ((vl805_spi_send_command (fun _ => 0) 1 0 (fun _ => 0xab)).chunks.map
        ChunkInfo.outdata) = [0xab] ∧
    (0xab : Nat) ≠ 0xab <<< 24 := by
  constructor
  · show ((sendChunks (fun _ => 0xab) (fun _ => 0) 1 0 1 0).map ChunkInfo.outdata) = _
    rw [sendChunks_pos _ _ 1 0 1 0 (by omega)]
    norm_num [sendChunks_zero, mkChunk, packOut, List.range_succ, List.range_zero,
      Nat.zero_shiftLeft, Nat.zero_or]
  · decide

/-- Claim C4 (amended): for writecnt = 1, readcnt = 0 exactly one chunk is
processed, with curtotalcnt = 1; the single write byte is packed into the
least significant byte of the 32-bit OUTDATA value (outdata = writearr[0],
the only active byte of the 1-byte cycle); the TRANSACTION word is
0x580 ||| (1 <<< 3); and zero read bytes are extracted. -/
theorem claim_c4_one_byte_write (o wa : Nat → Nat) :
    (vl805_spi_send_command o 1 0 wa).chunks
        = [{ jpos := 0, curtotalcnt := 1, curwritecnt := 1, curreadcnt := 0,
             outdata := wa 0 % 256, indata := o 0 % 2 ^ 32 }] ∧
    (vl805_spi_send_command o 1 0 wa).events
        = [Event.setreg VL805_REG_SPI_CHIP_ENABLE_LEVEL 0,
           Event.setreg VL805_REG_SPI_OUTDATA (wa 0 % 256),
           Event.setreg VL805_REG_SPI_TRANSACTION (0x580 ||| (1 <<< 3)),
           Event.getreg VL805_REG_SPI_INDATA (o 0 % 2 ^ 32),
           Event.setreg VL805_REG_SPI_CHIP_ENABLE_LEVEL 1] ∧
    (vl805_spi_send_command o 1 0 wa).readarr = [] := by
  have hch : sendChunks wa o 1 0 1 0
      = [{ jpos := 0, curtotalcnt := 1, curwritecnt := 1, curreadcnt := 0,
           outdata := wa 0 % 256, indata := o 0 % 2 ^ 32 }] := by
    rw [sendChunks_pos _ _ 1 0 1 0 (by omega)]
    norm_num [sendChunks_zero, mkChunk, packOut, List.range_succ, List.range_zero,
      Nat.zero_shiftLeft, Nat.zero_or]
  refine ⟨hch, ?_, ?_⟩
  · show Event.setreg VL805_REG_SPI_CHIP_ENABLE_LEVEL 0 ::
        ((sendChunks wa o 1 0 1 0).flatMap chunkEvents ++
          [Event.setreg VL805_REG_SPI_CHIP_ENABLE_LEVEL 1]) = _
    rw [hch]
    rfl
  · show (sendChunks wa o 1 0 1 0).flatMap chunkReads = _
    rw [hch]
    rfl

end VL805
